import Mathlib

/-!
Verification of the stats-collection pipeline of the `team1-dashboard`
repository (`scripts/collect_stats.py`).

The script enumerates an organization's repositories, fetches each active
repository's commits for a trailing window, aggregates per-author counts,
classifies each repository into a "track", and emits a JSON report with two
capped leaderboards.  The definitions below are a shallow embedding of that
script: network fetches are represented by the data they return (each
enumerated repository is paired with the commit list the provider returns
for it), and the REST pagination loop of `commit_activity` is modelled over
an explicit list of HTTP responses.
-/

namespace CollectStats

/-- Python `s.startswith(pre)`: `pre` is a prefix of `s` (by code points). -/
def pyStartswith (s pre : String) : Bool :=
  pre.data.isPrefixOf s.data

/-- Python `s.lower()` (ASCII case folding, as used for repository names). -/
def pyLower (s : String) : String :=
  ⟨s.data.map Char.toLower⟩

/-- Python truthiness-based `a or b` for an optional string `a`:
`None` and `""` are falsy, so they fall through to `b`. -/
def pyOr (a : Option String) (b : String) : String :=
  match a with
  | some s => if s = "" then b else s
  | none => b

/-- Fuel-indexed engine of Python `s.replace(old, new)` for a nonempty `old`:
scans left to right, replacing every non-overlapping occurrence of `pat`.
`fuel` is instantiated with the length of the scanned list, which is
sufficient since every step consumes at least one character. -/
def repAux (pat repl : List Char) : Nat → List Char → List Char
  | _, [] => []
  | 0, s => s
  | fuel + 1, c :: rest =>
    if pat ≠ [] ∧ pat.isPrefixOf (c :: rest) then
      repl ++ repAux pat repl fuel (List.drop (pat.length - 1) rest)
    else
      c :: repAux pat repl fuel rest

/-- Python `s.replace(pat, repl)` (for the nonempty patterns the script uses):
replaces every occurrence of `pat` in `s`, not only a leading one. -/
def pyReplace (s pat repl : String) : String :=
  ⟨repAux pat.data repl.data s.data.length s.data⟩

/-- Whether `pat` occurs as a contiguous sublist of `s`. -/
def hasOcc (pat : List Char) : List Char → Bool
  | [] => pat.isEmpty
  | c :: rest => pat.isPrefixOf (c :: rest) || hasOcc pat rest

/-- Python `dict.get(k)` on an insertion-ordered association list with unique
keys: the value at key `k`, or `None`. -/
def lookupMap (m : List (String × String)) (k : String) : Option String :=
  (m.find? (fun p => p.1 == k)).map (fun p => p.2)

/-- Python `d[k] = v` on an insertion-ordered association list with unique
keys: overwrite in place if the key exists, otherwise append. -/
def dictInsert (m : List (String × String)) (k v : String) : List (String × String) :=
  if m.any (fun p => p.1 == k) then
    m.map (fun p => if p.1 == k then (k, v) else p)
  else
    m ++ [(k, v)]

/-- Loading of `track_map.yaml` (lines 19-26 of `collect_stats.py`): for each
`(track, repos)` entry of the raw YAML mapping, each listed repository name is
lowercased and mapped to its track. -/
def build_track_map (raw : List (String × List String)) : List (String × String) :=
  raw.foldl (fun m tr => tr.2.foldl (fun m r => dictInsert m (pyLower r) tr.1) m) []

/-- `infer_track(repo_name, topics)` (lines 114-118): the first topic starting
with `"track-"` wins, with `str.replace` applied to it; otherwise a lookup of
the lowercased repository name in the static track map (`None` if absent). -/
def infer_track (tm : List (String × String)) (repo_name : String)
    (topics : List String) : Option String :=
  match topics.find? (fun t => pyStartswith t "track-") with
  | some t => some (pyReplace t "track-" "")
  | none => lookupMap tm (pyLower repo_name)

/-- One commit as consumed by the aggregation loop: the linked account login
(if any), the raw commit author name (if present), and the author date. -/
structure Commit where
  authorLogin : Option String
  commitAuthorName : Option String
  date : String
deriving DecidableEq

/-- Author attribution of a commit (lines 148-149):
`(c.get("author") or {}).get("login") or c["commit"]["author"].get("name", "unknown")` —
a missing or empty login falls back to the raw name, a missing name to
`"unknown"`. -/
def commitAuthor (c : Commit) : String :=
  let fallback :=
    match c.commitAuthorName with
    | some n => n
    | none => "unknown"
  match c.authorLogin with
  | some l => if l = "" then fallback else l
  | none => fallback

/-- `by_author[k] += 1` on an insertion-ordered counter (Python `defaultdict(int)`
keeps first-insertion order on iteration). -/
def bump (acc : List (String × Nat)) (k : String) : List (String × Nat) :=
  match acc with
  | [] => [(k, 1)]
  | p :: rest => if p.1 == k then (p.1, p.2 + 1) :: rest else p :: bump rest k

/-- The `by_author` counter built by the per-repository loop (lines 147-150),
as an insertion-ordered association list. -/
def countBy (keys : List String) : List (String × Nat) :=
  keys.foldl bump []

/-- `contributor_totals[k] += v` on an insertion-ordered counter. -/
def bumpN (acc : List (String × Nat)) (kv : String × Nat) : List (String × Nat) :=
  match acc with
  | [] => [kv]
  | p :: rest => if p.1 == kv.1 then (p.1, p.2 + kv.2) :: rest else p :: bumpN rest kv

/-- Merging one repository's `by_author` items into `contributor_totals`
(lines 170-171). -/
def addCounts (acc items : List (String × Nat)) : List (String × Nat) :=
  items.foldl bumpN acc

/-- Python `a < b` on strings: lexicographic comparison by code point. -/
def strLtAux : List Char → List Char → Bool
  | [], [] => false
  | [], _ :: _ => true
  | _ :: _, [] => false
  | a :: as, b :: bs =>
    if a.toNat < b.toNat then true
    else if b.toNat < a.toNat then false
    else strLtAux as bs

/-- Python `a < b` on strings. -/
def pyStrLt (a b : String) : Bool :=
  strLtAux a.data b.data

/-- The running maximum commit date (lines 151-153): replaced when unset,
empty, or lexicographically smaller than the incoming date. -/
def lastCommitISO (commits : List Commit) : Option String :=
  commits.foldl
    (fun acc c =>
      match acc with
      | none => some c.date
      | some d => if d = "" ∨ pyStrLt d c.date then some c.date else some d)
    none

/-- Stable insertion of `x` into `l` for a descending order on `key`:
`x` goes before the first element whose key is `≤ key x`, so an earlier
element keeps its place among equals. -/
def insertDesc (key : α → Nat) (x : α) : List α → List α
  | [] => [x]
  | y :: ys => if key y ≤ key x then x :: y :: ys else y :: insertDesc key x ys

/-- Python `sorted(l, key=key, reverse=True)`: the stable descending sort
by `key` (stable sorts for a fixed order agree, so insertion sort is a
faithful model of Timsort here). -/
def sortDesc (key : α → Nat) : List α → List α
  | [] => []
  | x :: xs => insertDesc key x (sortDesc key xs)

/-- Sum of the counts of an insertion-ordered counter. -/
def sumVals (l : List (String × Nat)) : Nat :=
  (l.map (fun p => p.2)).sum

/-- One enumerated repository, as returned by `list_org_repos` (lines 43-89).
`pushedAt` is `none` when the provider reports `pushedAt: null`. -/
structure RepoInput where
  name : String
  full : String
  archived : Bool
  disabled : Bool
  updatedAt : String
  pushedAt : Option String
  topics : List String
deriving DecidableEq

/-- The `repo_info` record assembled per active repository (lines 156-167). -/
structure RepoSummary where
  name : String
  full : String
  topics : List String
  track : Option String
  commits_count : Nat
  contributors : List (String × Nat)
  last_commit_at : String
deriving DecidableEq

/-- An entry of `leaderboards.top_repos_30d`. -/
structure RepoLBEntry where
  repo : String
  commits : Nat
deriving DecidableEq

/-- An entry of `leaderboards.top_contributors_30d`. -/
structure ContribLBEntry where
  login : String
  commits : Nat
deriving DecidableEq

/-- The `org_stats` document written to `public/stats.json` (lines 127-183). -/
structure OrgStats where
  org : String
  generated_at : String
  window_days : Nat
  repos_total : Nat
  repos : List RepoSummary
  top_repos_30d : List RepoLBEntry
  top_contributors_30d : List ContribLBEntry
deriving DecidableEq

/-- The body of the per-repository loop (lines 143-167): count commits by
author, sort the contributor list descending by count, and fall back from the
newest commit date to `pushedAt` to `"N/A"`. -/
def mkSummary (tm : List (String × String)) (r : RepoInput)
    (commits : List Commit) : RepoSummary :=
  let by_author := countBy (commits.map commitAuthor)
  { name := r.name
    full := r.full
    topics := r.topics
    track := infer_track tm r.name r.topics
    commits_count := commits.length
    contributors := sortDesc (fun p => p.2) by_author
    last_commit_at := pyOr (lastCommitISO commits) (pyOr r.pushedAt "N/A") }

/-- The repositories the loop does not `continue` past (lines 139-141):
neither archived nor disabled. Each enumerated repository is paired with the
commit list `commit_activity` returns for it. -/
def activeRepos (input : List (RepoInput × List Commit)) :
    List (RepoInput × List Commit) :=
  input.filter (fun p => !(p.1.archived || p.1.disabled))

/-- The `repo_activity` list (line 169) already shaped as leaderboard entries
(line 176): one `(name, commits_count)` pair per active repository, in
encounter order. -/
def repo_activity (tm : List (String × String))
    (input : List (RepoInput × List Commit)) : List RepoLBEntry :=
  (activeRepos input).map (fun p =>
    { repo := (mkSummary tm p.1 p.2).name
      commits := (mkSummary tm p.1 p.2).commits_count })

/-- The `contributor_totals` counter (lines 136, 170-171): per-author commit
counts accumulated across all active repositories, in first-encounter order. -/
def contributor_totals (input : List (RepoInput × List Commit)) :
    List (String × Nat) :=
  (activeRepos input).foldl
    (fun acc p => addCounts acc (countBy (p.2.map commitAuthor))) []

/-- `contributor_totals.items()` shaped as leaderboard entries (line 181). -/
def contribEntries (input : List (RepoInput × List Commit)) :
    List ContribLBEntry :=
  (contributor_totals input).map (fun kv => { login := kv.1, commits := kv.2 })

/-- `main()` (lines 121-188) minus the I/O: assemble the report from the
enumerated repositories and the commits fetched for each active one. -/
def run (org generated_at : String) (window_days : Nat)
    (tm : List (String × String))
    (input : List (RepoInput × List Commit)) : OrgStats :=
  { org := org
    generated_at := generated_at
    window_days := window_days
    repos_total := input.length
    repos := (activeRepos input).map (fun p => mkSummary tm p.1 p.2)
    top_repos_30d := (sortDesc (fun e => e.commits) (repo_activity tm input)).take 10
    top_contributors_30d :=
      (sortDesc (fun e => e.commits) (contribEntries input)).take 15 }

/-- One REST response consumed by the pagination loop of `commit_activity`:
HTTP status, the parsed commit page, and whether a `next` link is present. -/
structure HttpResponse where
  status : Nat
  body : List Commit
  hasNext : Bool
deriving DecidableEq

/-- Outcome of `commit_activity`: a commit list, an uncaught
`requests.HTTPError` carrying the status (fatal for the run), or exhaustion
of the modelled response sequence while a further page was requested. -/
inductive FetchResult where
  | ok (commits : List Commit)
  | httpError (status : Nat)
  | outOfPages
deriving DecidableEq

/-- `commit_activity` (lines 91-112) over an explicit response sequence:
a 409 returns `[]` at once (even mid-pagination, discarding earlier pages);
otherwise `raise_for_status()` raises exactly on statuses 400-599; otherwise
the page is accumulated and the `next` link followed while present. -/
def commit_activity : List HttpResponse → List Commit → FetchResult
  | [], _ => FetchResult.outOfPages
  | r :: rest, acc =>
    if r.status = 409 then FetchResult.ok []
    else if 400 ≤ r.status ∧ r.status < 600 then FetchResult.httpError r.status
    else if r.hasNext then commit_activity rest (acc ++ r.body)
    else FetchResult.ok (acc ++ r.body)

end CollectStats

namespace CollectStats

/-! ### Lemmas about the stable descending sort -/

theorem length_insertDesc (key : α → Nat) (x : α) (l : List α) :
    (insertDesc key x l).length = l.length + 1 := by
  induction l with
  | nil => rfl
  | cons y ys ih =>
    simp only [insertDesc]
    split
    · simp
    · simp [ih]

theorem length_sortDesc (key : α → Nat) (l : List α) :
    (sortDesc key l).length = l.length := by
  induction l with
  | nil => rfl
  | cons x xs ih => simp [sortDesc, length_insertDesc, ih]

theorem sum_map_insertDesc (key : α → Nat) (f : α → Nat) (x : α) (l : List α) :
    ((insertDesc key x l).map f).sum = f x + (l.map f).sum := by
  induction l with
  | nil => simp [insertDesc]
  | cons y ys ih =>
    simp only [insertDesc]
    split
    · simp
    · simp [ih]; omega

theorem sum_map_sortDesc (key : α → Nat) (f : α → Nat) (l : List α) :
    ((sortDesc key l).map f).sum = (l.map f).sum := by
  induction l with
  | nil => rfl
  | cons x xs ih => simp [sortDesc, sum_map_insertDesc, ih]

theorem head?_insertDesc (key : α → Nat) (x : α) (l : List α) :
    (insertDesc key x l).head? = some x ∨ (insertDesc key x l).head? = l.head? := by
  cases l with
  | nil => left; rfl
  | cons y ys =>
    simp only [insertDesc]
    split
    · left; rfl
    · right; rfl

theorem chain_insertDesc (key : α → Nat) (x : α) (l : List α)
    (h : List.Chain' (fun a b => key b ≤ key a) l) :
    List.Chain' (fun a b => key b ≤ key a) (insertDesc key x l) := by
  induction l with
  | nil => simp [insertDesc]
  | cons y ys ih =>
    simp only [insertDesc]
    split
    · exact List.chain'_cons'.2 ⟨fun z hz => by simp at hz; subst hz; omega, h⟩
    · rename_i hyx
      refine List.chain'_cons'.2 ⟨fun z hz => ?_, ih h.tail⟩
      rcases head?_insertDesc key x ys with hh | hh
      · rw [hh] at hz
        simp at hz
        subst hz
        omega
      · rw [hh] at hz
        exact (List.chain'_cons'.1 h).1 z hz

theorem chain_sortDesc (key : α → Nat) (l : List α) :
    List.Chain' (fun a b => key b ≤ key a) (sortDesc key l) := by
  induction l with
  | nil => simp [sortDesc]
  | cons x xs ih => exact chain_insertDesc key x _ ih

theorem filter_insertDesc (key : α → Nat) (c : Nat) (x : α) (l : List α) :
    (insertDesc key x l).filter (fun a => key a == c) =
      if key x = c then x :: l.filter (fun a => key a == c)
      else l.filter (fun a => key a == c) := by
  induction l with
  | nil =>
    by_cases hx : key x = c
    · simp [insertDesc, List.filter_cons, hx]
    · simp [insertDesc, List.filter_cons, hx]
  | cons y ys ih =>
    simp only [insertDesc]
    split
    · by_cases hx : key x = c
      · simp [List.filter_cons, hx]
      · simp [List.filter_cons, hx]
    · rename_i hyx
      by_cases hy : key y = c
      · have hx : ¬ key x = c := by omega
        simp [List.filter_cons, hy, hx, ih]
      · simp [List.filter_cons, hy, ih]

theorem filter_sortDesc (key : α → Nat) (c : Nat) (l : List α) :
    (sortDesc key l).filter (fun a => key a == c) =
      l.filter (fun a => key a == c) := by
  induction l with
  | nil => rfl
  | cons x xs ih =>
    simp only [sortDesc, filter_insertDesc, List.filter_cons]
    by_cases hx : key x = c
    · simp [hx, ih]
    · simp [hx, ih]

theorem takeIsPre (n : Nat) (l : List α) : l.take n <+: l :=
  ⟨l.drop n, l.take_append_drop n⟩

end CollectStats

namespace CollectStats

/-! ### Lemmas about the insertion-ordered counters -/

theorem sumVals_nil : sumVals [] = 0 := rfl

theorem sumVals_cons (p : String × Nat) (l : List (String × Nat)) :
    sumVals (p :: l) = p.2 + sumVals l := by
  simp [sumVals]

theorem sumVals_bump (acc : List (String × Nat)) (k : String) :
    sumVals (bump acc k) = sumVals acc + 1 := by
  induction acc with
  | nil => rfl
  | cons p rest ih =>
    simp only [bump]
    split
    · simp [sumVals_cons]; omega
    · simp [sumVals_cons, ih]; omega

theorem sumVals_foldl_bump (keys : List String) (acc : List (String × Nat)) :
    sumVals (keys.foldl bump acc) = sumVals acc + keys.length := by
  induction keys generalizing acc with
  | nil => simp
  | cons k ks ih => simp [List.foldl_cons, ih, sumVals_bump]; omega

theorem sumVals_countBy (keys : List String) :
    sumVals (countBy keys) = keys.length := by
  simp [countBy, sumVals_foldl_bump, sumVals_nil]

theorem sumVals_bumpN (acc : List (String × Nat)) (kv : String × Nat) :
    sumVals (bumpN acc kv) = sumVals acc + kv.2 := by
  induction acc with
  | nil => simp [bumpN, sumVals_cons, sumVals_nil]
  | cons p rest ih =>
    simp only [bumpN]
    split
    · simp [sumVals_cons]; omega
    · simp [sumVals_cons, ih]; omega

theorem sumVals_addCounts (acc items : List (String × Nat)) :
    sumVals (addCounts acc items) = sumVals acc + sumVals items := by
  induction items generalizing acc with
  | nil => simp [addCounts, sumVals_nil]
  | cons kv rest ih =>
    simp only [addCounts, List.foldl_cons] at ih ⊢
    rw [ih, sumVals_bumpN, sumVals_cons]
    omega

theorem sumVals_contributor_totals (input : List (RepoInput × List Commit)) :
    sumVals (contributor_totals input) =
      ((activeRepos input).map (fun p => p.2.length)).sum := by
  have aux : ∀ (l : List (RepoInput × List Commit)) (acc : List (String × Nat)),
      sumVals (l.foldl
        (fun acc p => addCounts acc (countBy (p.2.map commitAuthor))) acc) =
        sumVals acc + (l.map (fun p => p.2.length)).sum := by
    intro l
    induction l with
    | nil => simp
    | cons p rest ih =>
      intro acc
      simp only [List.foldl_cons, List.map_cons, List.sum_cons]
      rw [ih, sumVals_addCounts, sumVals_countBy, List.length_map]
      omega
  simp [contributor_totals, aux, sumVals_nil]

/-! ### Lemmas about Python `str.replace` -/

theorem isPrefixOf_append_self (l s : List Char) : l.isPrefixOf (l ++ s) = true := by
  induction l with
  | nil => simp [List.isPrefixOf]
  | cons a as ih => simp [List.isPrefixOf, ih]

theorem repAux_no_occ (pat repl : List Char) :
    ∀ (s : List Char) (fuel : Nat), hasOcc pat s = false → s.length ≤ fuel →
      repAux pat repl fuel s = s := by
  intro s
  induction s with
  | nil => intro fuel _ _; cases fuel <;> rfl
  | cons c rest ih =>
    intro fuel hocc hfuel
    cases fuel with
    | zero => simp at hfuel
    | succ f =>
      simp only [hasOcc, Bool.or_eq_false_iff] at hocc
      simp only [repAux]
      rw [if_neg (by simp [hocc.1]), ih f hocc.2 (by simp at hfuel; omega)]

theorem repAux_leading (pat repl s : List Char) (f : Nat) (hpat : pat ≠ []) :
    repAux pat repl (f + 1) (pat ++ s) = repl ++ repAux pat repl f s := by
  cases pat with
  | nil => exact absurd rfl hpat
  | cons d dt =>
    rw [List.cons_append]
    simp only [repAux]
    rw [if_pos]
    · congr 1
      have hlen : (d :: dt).length - 1 = dt.length := by simp
      rw [hlen, List.drop_left]
    · refine ⟨by simp, ?_⟩
      rw [show d :: (dt ++ s) = (d :: dt) ++ s from rfl]
      exact isPrefixOf_append_self _ _

theorem pyReplace_strip (suffix : String)
    (h : hasOcc "track-".data suffix.data = false) :
    pyReplace ("track-" ++ suffix) "track-" "" = suffix := by
  show (⟨repAux "track-".data "".data ("track-" ++ suffix).data.length
        ("track-" ++ suffix).data⟩ : String) = suffix
  have hdata : ("track-" ++ suffix).data = "track-".data ++ suffix.data := by
    rfl
  rw [hdata]
  have hlen : ("track-".data ++ suffix.data).length = (5 + suffix.data.length) + 1 := by
    simp [List.length_append]
    omega
  rw [hlen, repAux_leading _ _ _ _ (by simp),
    repAux_no_occ _ _ _ _ h (by omega)]
  rfl

end CollectStats

namespace CollectStats

/-! ### Lemmas about the static track map -/

theorem any_key_map_replace (m : List (String × String)) (k v k' : String) :
    (m.map (fun p => if p.1 == k then (k, v) else p)).any (fun p => p.1 == k') =
      m.any (fun p => p.1 == k') := by
  induction m with
  | nil => rfl
  | cons p rest ih =>
    simp only [List.map_cons, List.any_cons]
    rw [ih]
    by_cases hp : p.1 = k
    · simp [hp]
    · simp [hp]

theorem any_key_dictInsert (m : List (String × String)) (k v k' : String) :
    (dictInsert m k v).any (fun p => p.1 == k') =
      (m.any (fun p => p.1 == k') || k == k') := by
  unfold dictInsert
  split
  · rename_i hk
    rw [any_key_map_replace]
    by_cases hkk : k = k'
    · subst hkk
      simp [hk]
    · simp [hkk]
  · simp [List.any_append]

theorem any_key_insertRepos (t : String) (rs : List String)
    (m : List (String × String)) (k : String) :
    ((rs.foldl (fun m r => dictInsert m (pyLower r) t) m).any (fun p => p.1 == k)) =
      (m.any (fun p => p.1 == k) || rs.any (fun r => pyLower r == k)) := by
  induction rs generalizing m with
  | nil => simp
  | cons r rest ih =>
    simp only [List.foldl_cons, List.any_cons]
    rw [ih, any_key_dictInsert, Bool.or_assoc]

theorem any_key_build (raw : List (String × List String)) (k : String) :
    (build_track_map raw).any (fun p => p.1 == k) =
      raw.any (fun tr => tr.2.any (fun r => pyLower r == k)) := by
  have aux : ∀ (rawl : List (String × List String)) (m : List (String × String)),
      ((rawl.foldl
          (fun m tr => tr.2.foldl (fun m r => dictInsert m (pyLower r) tr.1) m)
          m).any (fun p => p.1 == k)) =
        (m.any (fun p => p.1 == k) ||
          rawl.any (fun tr => tr.2.any (fun r => pyLower r == k))) := by
    intro rawl
    induction rawl with
    | nil => simp
    | cons tr rest ih =>
      intro m
      simp only [List.foldl_cons, List.any_cons]
      rw [ih, any_key_insertRepos, Bool.or_assoc]
  simp [build_track_map, aux]

theorem lookupMap_isSome (m : List (String × String)) (k : String) :
    (∃ v, lookupMap m k = some v) ↔ m.any (fun p => p.1 == k) = true := by
  rw [lookupMap, ← Option.isSome_iff_exists]
  simp [Option.isSome_map', List.find?_isSome, List.any_eq_true]

theorem lookupMap_eq_none (m : List (String × String)) (k : String) :
    lookupMap m k = none ↔ m.any (fun p => p.1 == k) = false := by
  simp [lookupMap, List.find?_eq_none, List.any_eq_false]

end CollectStats

namespace CollectStats

/-! ### Claim C2 -/

/-- C2 counterexample: on the topic `"track-track-backend"` (which starts with
the reserved prefix, with suffix `"track-backend"`), `infer_track` returns
`"backend"`, not the suffix: `str.replace` removes every occurrence of
`"track-"`, not only the leading prefix. -/
theorem c2_counterexample :
    infer_track [] "repo-x" ["track-track-backend"] = some "backend" ∧
      "backend" ≠ "track-backend" := by
  decide

/-- C2 (amended): when some topic starts with `"track-"`, `infer_track`
returns the first such topic with every occurrence of `"track-"` removed; in
particular, whenever the suffix after the leading prefix contains no further
occurrence of `"track-"`, the result is exactly that suffix. -/
theorem c2_first_track_topic (tm : List (String × String)) (name : String)
    (topics : List String) (t suffix : String)
    (hfind : topics.find? (fun t => pyStartswith t "track-") = some t)
    (ht : t = "track-" ++ suffix)
    (hocc : hasOcc "track-".data suffix.data = false) :
    infer_track tm name topics = some suffix := by
  simp only [infer_track, hfind]
  subst ht
  rw [pyReplace_strip suffix hocc]

/-- C2 witness: the spec's own example, `infer_track("repo-x",
["track-backend"])` yields `"backend"`. -/
theorem c2_witness :
    infer_track [] "repo-x" ["track-backend"] = some "backend" :=
  c2_first_track_topic [] "repo-x" ["track-backend"] "track-backend" "backend"
    (by decide) (by decide) (by decide)

/-! ### Claim C3 -/

theorem mem_dictInsert (m : List (String × String)) (k v : String)
    (q : String × String) (hq : q ∈ dictInsert m k v) : q ∈ m ∨ q = (k, v) := by
  unfold dictInsert at hq
  split at hq
  · rw [List.mem_map] at hq
    obtain ⟨p, hp, hpq⟩ := hq
    by_cases hpk : p.1 = k
    · right
      rw [← hpq]
      simp [hpk]
    · left
      rw [← hpq]
      simp only [hpk, beq_iff_eq, if_false]
      exact hp
  · rw [List.mem_append] at hq
    rcases hq with h | h
    · exact Or.inl h
    · simp at h
      exact Or.inr h

theorem mem_insertRepos (t : String) (rs : List String) :
    ∀ (m : List (String × String)) (q : String × String),
      q ∈ rs.foldl (fun m r => dictInsert m (pyLower r) t) m →
      q ∈ m ∨ ∃ r ∈ rs, q = (pyLower r, t) := by
  induction rs with
  | nil => exact fun m q hq => Or.inl hq
  | cons r rest ih =>
    intro m q hq
    simp only [List.foldl_cons] at hq
    rcases ih (dictInsert m (pyLower r) t) q hq with h | h
    · rcases mem_dictInsert _ _ _ _ h with h' | h'
      · exact Or.inl h'
      · exact Or.inr ⟨r, by simp, h'⟩
    · obtain ⟨r', hr', hq'⟩ := h
      exact Or.inr ⟨r', by simp [hr'], hq'⟩

theorem mem_build (raw : List (String × List String)) (q : String × String)
    (hq : q ∈ build_track_map raw) :
    ∃ p ∈ raw, ∃ r ∈ p.2, q = (pyLower r, p.1) := by
  have aux : ∀ (rawl : List (String × List String))
      (m : List (String × String)) (q : String × String),
      q ∈ rawl.foldl
          (fun m tr => tr.2.foldl (fun m r => dictInsert m (pyLower r) tr.1) m) m →
      q ∈ m ∨ ∃ p ∈ rawl, ∃ r ∈ p.2, q = (pyLower r, p.1) := by
    intro rawl
    induction rawl with
    | nil => exact fun m q hq => Or.inl hq
    | cons tr rest ih =>
      intro m q hq
      simp only [List.foldl_cons] at hq
      rcases ih _ q hq with h | h
      · rcases mem_insertRepos tr.1 tr.2 m q h with h' | h'
        · exact Or.inl h'
        · obtain ⟨r, hr, hq'⟩ := h'
          exact Or.inr ⟨tr, by simp, r, hr, hq'⟩
      · obtain ⟨p, hp, r, hr, hq'⟩ := h
        exact Or.inr ⟨p, by simp [hp], r, hr, hq'⟩
  rcases aux raw [] q hq with h | h
  · simp at h
  · exact h

theorem lookupMap_build_value (raw : List (String × List String)) (k v : String)
    (h : lookupMap (build_track_map raw) k = some v) :
    ∃ p ∈ raw, v = p.1 ∧ ∃ r ∈ p.2, pyLower r = k := by
  rw [lookupMap] at h
  cases hf : (build_track_map raw).find? (fun p => p.1 == k) with
  | none => rw [hf] at h; simp at h
  | some q =>
    rw [hf] at h
    have hv : q.2 = v := by simpa using h
    have hqk : q.1 = k := by simpa using List.find?_some hf
    obtain ⟨p, hp, r, hr, hq⟩ := mem_build raw q (List.mem_of_find?_eq_some hf)
    rw [hq] at hv hqk
    exact ⟨p, hp, hv.symm, r, hr, hqk⟩

/-- C3: when no topic carries the `"track-"` prefix, `infer_track` falls back
to a case-insensitive lookup of the repository name in the static map built
from the configuration file: if the configuration associates the queried name
(up to case) with the track `tr` — some configured repository name equals the
queried name up to case, and every configured name that does carries the track
`tr` — then `infer_track` returns exactly `some tr`, even when the configured
name differs in case; if no configured name matches up to case, the result is
the absent value `none`. -/
theorem c3_fallback_lookup (raw : List (String × List String)) (name : String)
    (topics : List String) (tr : String)
    (hfind : topics.find? (fun t => pyStartswith t "track-") = none) :
    (((∃ p ∈ raw, ∃ r ∈ p.2, pyLower r = pyLower name) ∧
        (∀ p ∈ raw, (∃ r ∈ p.2, pyLower r = pyLower name) → p.1 = tr)) →
        infer_track (build_track_map raw) name topics = some tr) ∧
      ((∀ p ∈ raw, ∀ r ∈ p.2, pyLower r ≠ pyLower name) →
        infer_track (build_track_map raw) name topics = none) := by
  have hit : infer_track (build_track_map raw) name topics
      = lookupMap (build_track_map raw) (pyLower name) := by
    simp only [infer_track, hfind]
  constructor
  · rintro ⟨⟨p, hp, r, hr, hlow⟩, huniq⟩
    have hex : ∃ v, lookupMap (build_track_map raw) (pyLower name) = some v := by
      rw [lookupMap_isSome, any_key_build, List.any_eq_true]
      exact ⟨p, hp, List.any_eq_true.2 ⟨r, hr, by simp [hlow]⟩⟩
    obtain ⟨v, hv⟩ := hex
    obtain ⟨p', hp', hvp', r', hr', hlow'⟩ := lookupMap_build_value raw _ v hv
    rw [hit, hv, hvp', huniq p' hp' ⟨r', hr', hlow'⟩]
  · intro habs
    rw [hit, lookupMap_eq_none, any_key_build, List.any_eq_false]
    intro p hp hcontra
    rw [List.any_eq_true] at hcontra
    obtain ⟨r, hr, hbeq⟩ := hcontra
    exact habs p hp r hr (by simpa using hbeq)

/-- C3 witness: with the configuration mapping track `"backend"` to repository
`"Repo-Y"`, the name `"repo-y"` (different case) yields exactly
`some "backend"`, and an unmapped name yields `none`. -/
theorem c3_witness :
    infer_track (build_track_map [("backend", ["Repo-Y"])]) "repo-y" []
        = some "backend" ∧
      infer_track (build_track_map [("backend", ["Repo-Y"])]) "ghost" [] = none := by
  constructor
  · exact (c3_fallback_lookup [("backend", ["Repo-Y"])] "repo-y" [] "backend"
      (by decide)).1 ⟨by decide, by decide⟩
  · exact (c3_fallback_lookup [("backend", ["Repo-Y"])] "ghost" [] "backend"
      (by decide)).2 (by decide)

/-! ### Claim C7 -/

/-- C7 counterexample: a response with status 300 is neither a success (2xx)
nor the 409 conflict, yet `commit_activity` does not raise: it treats the body
as a commit page and returns it, so not every non-success status is fatal
(`raise_for_status` only raises on 400-599). -/
theorem c7_counterexample :
    commit_activity [⟨300, [⟨some "alice", none, "2024-01-01T00:00:00Z"⟩], false⟩] []
        = FetchResult.ok [⟨some "alice", none, "2024-01-01T00:00:00Z"⟩] ∧
      (300 : Nat) ≠ 409 ∧ ¬(200 ≤ (300 : Nat) ∧ (300 : Nat) < 300) := by
  decide

/-- C7 (amended): a 409 conflict makes `commit_activity` return the empty
commit list (a recoverable outcome, not an error), and every status in the
400-599 range other than 409 raises the fatal `HTTPError` carrying that
status; statuses outside 400-599 are not raised by `raise_for_status`. -/
theorem c7_status_handling (r : HttpResponse) (rest : List HttpResponse)
    (acc : List Commit) :
    (r.status = 409 → commit_activity (r :: rest) acc = FetchResult.ok []) ∧
      (r.status ≠ 409 → 400 ≤ r.status → r.status < 600 →
        commit_activity (r :: rest) acc = FetchResult.httpError r.status) := by
  constructor
  · intro h
    simp [commit_activity, h]
  · intro h1 h2 h3
    simp [commit_activity, h1, h2, h3]

/-- C7 witness: a 409 response yields the empty commit list, and a 500
response yields the fatal error. -/
theorem c7_witness :
    commit_activity [⟨409, [], false⟩] [] = FetchResult.ok [] ∧
      commit_activity [⟨500, [], false⟩] [] = FetchResult.httpError 500 := by
  constructor
  · exact (c7_status_handling ⟨409, [], false⟩ [] []).1 rfl
  · exact (c7_status_handling ⟨500, [], false⟩ [] []).2 (by decide) (by decide)
      (by decide)

end CollectStats

namespace CollectStats

/-! ### Projection lemmas for the per-repository summary -/

theorem mkSummary_commits_count (tm : List (String × String)) (r : RepoInput)
    (cs : List Commit) : (mkSummary tm r cs).commits_count = cs.length := rfl

theorem mkSummary_contributors (tm : List (String × String)) (r : RepoInput)
    (cs : List Commit) :
    (mkSummary tm r cs).contributors =
      sortDesc (fun p => p.2) (countBy (cs.map commitAuthor)) := rfl

theorem mkSummary_last_commit (tm : List (String × String)) (r : RepoInput)
    (cs : List Commit) :
    (mkSummary tm r cs).last_commit_at =
      pyOr (lastCommitISO cs) (pyOr r.pushedAt "N/A") := rfl

theorem sumVals_sortDesc (key : String × Nat → Nat) (l : List (String × Nat)) :
    sumVals (sortDesc key l) = sumVals l := by
  simp [sumVals, sum_map_sortDesc]

theorem sum_commits_repos (org g : String) (w : Nat) (tm : List (String × String))
    (input : List (RepoInput × List Commit)) :
    (((run org g w tm input).repos).map (fun s => s.commits_count)).sum =
      ((activeRepos input).map (fun p => p.2.length)).sum := by
  simp only [run, List.map_map]
  rfl

/-! ### Claim C1 -/

/-- C1 counterexample: one repository with 16 commits by 16 distinct authors.
The contributor leaderboard is capped at 15 entries, so its sum is 15 while
the per-repository commit counts sum to 16. -/
theorem c1_counterexample :
    (((run "o" "g" 30 []
          [(⟨"alpha", "org/alpha", false, false, "u", none, []⟩,
            (List.range 16).map (fun i => ⟨some (toString i), none, "d"⟩))]
        ).top_contributors_30d).map (fun e => e.commits)).sum ≠
      (((run "o" "g" 30 []
          [(⟨"alpha", "org/alpha", false, false, "u", none, []⟩,
            (List.range 16).map (fun i => ⟨some (toString i), none, "d"⟩))]
        ).repos).map (fun s => s.commits_count)).sum := by
  decide

/-- C1 (amended): for every run, the sum of the contributor totals before the
top-15 truncation equals the sum of `commits_count` over the report's repos
list (every fetched commit attributes to exactly one author); consequently the
sum over the `top_contributors_30d` entries equals that same total whenever
there are at most 15 distinct contributors. -/
theorem c1_contributor_sum (org g : String) (w : Nat) (tm : List (String × String))
    (input : List (RepoInput × List Commit)) :
    sumVals (contributor_totals input) =
        (((run org g w tm input).repos).map (fun s => s.commits_count)).sum ∧
      ((contributor_totals input).length ≤ 15 →
        (((run org g w tm input).top_contributors_30d).map (fun e => e.commits)).sum =
          (((run org g w tm input).repos).map (fun s => s.commits_count)).sum) := by
  have h1 : sumVals (contributor_totals input) =
      (((run org g w tm input).repos).map (fun s => s.commits_count)).sum := by
    rw [sum_commits_repos, sumVals_contributor_totals]
  refine ⟨h1, fun hlen15 => ?_⟩
  have hT : (run org g w tm input).top_contributors_30d
      = sortDesc (fun e => e.commits) (contribEntries input) := by
    simp only [run]
    apply List.take_of_length_le
    rw [length_sortDesc, contribEntries, List.length_map]
    exact hlen15
  rw [hT, sum_map_sortDesc, contribEntries, List.map_map]
  exact h1

/-- C1 witness: a run with two commits by one author and one by another has
three contributors' worth of commits on both sides of the equation. -/
theorem c1_witness :
    (((run "o" "g" 30 []
          [(⟨"alpha", "org/alpha", false, false, "u", none, []⟩,
            [⟨some "alice", none, "d1"⟩, ⟨some "bob", none, "d2"⟩,
              ⟨some "alice", none, "d3"⟩])]
        ).top_contributors_30d).map (fun e => e.commits)).sum =
      (((run "o" "g" 30 []
          [(⟨"alpha", "org/alpha", false, false, "u", none, []⟩,
            [⟨some "alice", none, "d1"⟩, ⟨some "bob", none, "d2"⟩,
              ⟨some "alice", none, "d3"⟩])]
        ).repos).map (fun s => s.commits_count)).sum :=
  (c1_contributor_sum "o" "g" 30 []
    [(⟨"alpha", "org/alpha", false, false, "u", none, []⟩,
      [⟨some "alice", none, "d1"⟩, ⟨some "bob", none, "d2"⟩,
        ⟨some "alice", none, "d3"⟩])]).2 (by decide)

/-! ### Claim C4 -/

/-- C4 counterexample: a zero-commit repository whose `pushedAt` is absent
(`null`, as the provider reports for empty repositories) gets
`last_commit_at = "N/A"`, not its last-pushed timestamp. -/
theorem c4_counterexample :
    ((run "o" "g" 30 []
        [(⟨"empty-repo", "org/empty-repo", false, false, "u", none, []⟩, [])]
      ).repos.map (fun s => s.commits_count) = [0]) ∧
      ((run "o" "g" 30 []
          [(⟨"empty-repo", "org/empty-repo", false, false, "u", none, []⟩, [])]
        ).repos.map (fun s => s.last_commit_at) = ["N/A"]) ∧
      (⟨"empty-repo", "org/empty-repo", false, false, "u", none, []⟩ :
        RepoInput).pushedAt = none := by
  decide

/-- C4 (amended): every summary in the report with `commits_count = 0` comes
from an active repository with an empty fetched commit list, and its
`last_commit_at` is the Python-truthiness fallback `pushedAt or "N/A"`: the
last-pushed timestamp when present (and nonempty), `"N/A"` when absent. -/
theorem c4_zero_commit_fallback (org g : String) (w : Nat)
    (tm : List (String × String)) (input : List (RepoInput × List Commit))
    (s : RepoSummary) (hs : s ∈ (run org g w tm input).repos)
    (h0 : s.commits_count = 0) :
    ∃ p, p ∈ input ∧ p.1.archived = false ∧ p.1.disabled = false ∧ p.2 = [] ∧
      s.last_commit_at = pyOr p.1.pushedAt "N/A" := by
  simp only [run] at hs
  rw [List.mem_map] at hs
  obtain ⟨p, hp, hsp⟩ := hs
  rw [activeRepos, List.mem_filter] at hp
  obtain ⟨hpin, hcond⟩ := hp
  have hflags : p.1.archived = false ∧ p.1.disabled = false := by
    simpa using hcond
  have hlen : p.2.length = 0 := by
    rw [← hsp, mkSummary_commits_count] at h0
    exact h0
  have hnil : p.2 = [] := List.length_eq_zero.1 hlen
  refine ⟨p, hpin, hflags.1, hflags.2, hnil, ?_⟩
  rw [← hsp, hnil]
  rfl

/-- C4 witness: a zero-commit repository with a present last-pushed timestamp
originates from an active input pair with no commits. -/
theorem c4_witness :
    ∃ p, p ∈ [((⟨"beta", "org/beta", false, false, "u",
          some "2024-01-02T00:00:00Z", []⟩ : RepoInput), ([] : List Commit))] ∧
      p.1.archived = false ∧ p.1.disabled = false ∧ p.2 = [] ∧
      (mkSummary [] ⟨"beta", "org/beta", false, false, "u",
          some "2024-01-02T00:00:00Z", []⟩ []).last_commit_at =
        pyOr p.1.pushedAt "N/A" :=
  c4_zero_commit_fallback "o" "g" 30 []
    [(⟨"beta", "org/beta", false, false, "u", some "2024-01-02T00:00:00Z", []⟩, [])]
    (mkSummary [] ⟨"beta", "org/beta", false, false, "u",
      some "2024-01-02T00:00:00Z", []⟩ [])
    (by decide) (by decide)

/-! ### Claim C5 -/

/-- C5: for every input, the repository leaderboard has at most 10 entries and
the contributor leaderboard at most 15, regardless of how many repositories or
contributors there are. -/
theorem c5_leaderboard_caps (org g : String) (w : Nat)
    (tm : List (String × String)) (input : List (RepoInput × List Commit)) :
    (run org g w tm input).top_repos_30d.length ≤ 10 ∧
      (run org g w tm input).top_contributors_30d.length ≤ 15 := by
  constructor
  · exact List.length_take_le 10 _
  · exact List.length_take_le 15 _

end CollectStats

namespace CollectStats

/-! ### Claim C6 -/

/-- C6: both leaderboards are sorted descending by commit count — adjacent
entries satisfy `first.commits ≥ second.commits` — and the sort is stable:
for any commit count `c`, the leaderboard's entries with count `c` are an
initial segment of the pre-sort list's entries with count `c`, i.e. they
appear in encounter order (`repo_activity` for repositories,
`contributor_totals` for contributors). -/
theorem c6_leaderboards_sorted_stable (org g : String) (w : Nat)
    (tm : List (String × String)) (input : List (RepoInput × List Commit)) :
    List.Chain' (fun a b => b.commits ≤ a.commits)
        (run org g w tm input).top_repos_30d ∧
      List.Chain' (fun a b => b.commits ≤ a.commits)
        (run org g w tm input).top_contributors_30d ∧
      (∀ c : Nat,
        ((run org g w tm input).top_repos_30d.filter (fun e => e.commits == c)) <+:
          ((repo_activity tm input).filter (fun e => e.commits == c))) ∧
      (∀ c : Nat,
        ((run org g w tm input).top_contributors_30d.filter
            (fun e => e.commits == c)) <+:
          ((contribEntries input).filter (fun e => e.commits == c))) := by
  refine ⟨?_, ?_, ?_, ?_⟩
  · exact (chain_sortDesc (fun e => e.commits) (repo_activity tm input)).take 10
  · exact (chain_sortDesc (fun e => e.commits) (contribEntries input)).take 15
  · intro c
    have h := (takeIsPre 10
        (sortDesc (fun e => e.commits) (repo_activity tm input))).filter
      (fun e => e.commits == c)
    rwa [filter_sortDesc (fun e => e.commits) c (repo_activity tm input)] at h
  · intro c
    have h := (takeIsPre 15
        (sortDesc (fun e => e.commits) (contribEntries input))).filter
      (fun e => e.commits == c)
    rwa [filter_sortDesc (fun e => e.commits) c (contribEntries input)] at h

/-! ### Claim C8 -/

/-- C8: an enumerated repository whose archived or disabled flag is set
contributes nothing to the report: deleting its input pair leaves the repos
list and both leaderboards unchanged (only `repos_total` counts it). -/
theorem c8_archived_excluded (org g : String) (w : Nat)
    (tm : List (String × String))
    (input1 input2 : List (RepoInput × List Commit)) (r : RepoInput)
    (cs : List Commit) (h : r.archived = true ∨ r.disabled = true) :
    (run org g w tm (input1 ++ (r, cs) :: input2)).repos =
        (run org g w tm (input1 ++ input2)).repos ∧
      (run org g w tm (input1 ++ (r, cs) :: input2)).top_repos_30d =
        (run org g w tm (input1 ++ input2)).top_repos_30d ∧
      (run org g w tm (input1 ++ (r, cs) :: input2)).top_contributors_30d =
        (run org g w tm (input1 ++ input2)).top_contributors_30d := by
  have hact : activeRepos (input1 ++ (r, cs) :: input2) =
      activeRepos (input1 ++ input2) := by
    simp only [activeRepos, List.filter_append, List.filter_cons]
    rcases h with h | h <;> simp [h]
  refine ⟨?_, ?_, ?_⟩ <;>
    simp only [run, repo_activity, contributor_totals, contribEntries, hact]

/-- C8 witness: dropping a concrete archived repository from the input leaves
the repos list and both leaderboards of the report unchanged. -/
theorem c8_witness :
    (run "o" "g" 30 [] ([] ++ ((⟨"arch", "org/arch", true, false, "u", none,
          []⟩ : RepoInput), ([] : List Commit)) :: [])).repos =
        (run "o" "g" 30 [] ([] ++ [])).repos ∧
      (run "o" "g" 30 [] ([] ++ ((⟨"arch", "org/arch", true, false, "u", none,
          []⟩ : RepoInput), ([] : List Commit)) :: [])).top_repos_30d =
        (run "o" "g" 30 [] ([] ++ [])).top_repos_30d ∧
      (run "o" "g" 30 [] ([] ++ ((⟨"arch", "org/arch", true, false, "u", none,
          []⟩ : RepoInput), ([] : List Commit)) :: [])).top_contributors_30d =
        (run "o" "g" 30 [] ([] ++ [])).top_contributors_30d :=
  c8_archived_excluded "o" "g" 30 [] [] []
    ⟨"arch", "org/arch", true, false, "u", none, []⟩ [] (Or.inl rfl)

/-! ### Claim C9 -/

/-- C9: `repos_total` counts every enumerated repository, archived and
disabled ones included, while the repos list only keeps the active ones; on a
concrete input holding a single archived repository, `repos_total` is 1 and
the repos list is empty, so `repos_total` can exceed the repos list length. -/
theorem c9_repos_total_counts_all (org g : String) (w : Nat)
    (tm : List (String × String)) (input : List (RepoInput × List Commit)) :
    ((run org g w tm input).repos_total = input.length ∧
        (run org g w tm input).repos.length ≤ input.length) ∧
      ((run "o" "g" 30 []
          [((⟨"arch", "org/arch", true, false, "u", none, []⟩ : RepoInput),
            ([] : List Commit))]).repos_total = 1 ∧
        (run "o" "g" 30 []
          [((⟨"arch", "org/arch", true, false, "u", none, []⟩ : RepoInput),
            ([] : List Commit))]).repos.length = 0) := by
  refine ⟨⟨rfl, ?_⟩, by decide⟩
  simp only [run, List.length_map, activeRepos]
  exact List.length_filter_le _ _

/-! ### Claim C10 -/

/-- C10: for every repository summary in the report, `commits_count` equals
the sum of the per-contributor commit counts in its `contributors` list:
each fetched commit increments exactly one author's counter. -/
theorem c10_commits_count_eq_contributor_sum (org g : String) (w : Nat)
    (tm : List (String × String)) (input : List (RepoInput × List Commit))
    (s : RepoSummary) (hs : s ∈ (run org g w tm input).repos) :
    s.commits_count = sumVals s.contributors := by
  simp only [run] at hs
  rw [List.mem_map] at hs
  obtain ⟨p, hp, hsp⟩ := hs
  rw [← hsp, mkSummary_commits_count, mkSummary_contributors,
    sumVals_sortDesc, sumVals_countBy, List.length_map]

/-- C10 witness: a concrete three-commit repository summary satisfies the
per-repository commit/contributor sum identity. -/
theorem c10_witness :
    (mkSummary [] ⟨"alpha", "org/alpha", false, false, "u", none, []⟩
        [⟨some "alice", none, "d1"⟩, ⟨some "bob", none, "d2"⟩,
          ⟨some "alice", none, "d3"⟩]).commits_count =
      sumVals (mkSummary [] ⟨"alpha", "org/alpha", false, false, "u", none, []⟩
        [⟨some "alice", none, "d1"⟩, ⟨some "bob", none, "d2"⟩,
          ⟨some "alice", none, "d3"⟩]).contributors :=
  c10_commits_count_eq_contributor_sum "o" "g" 30 []
    [(⟨"alpha", "org/alpha", false, false, "u", none, []⟩,
      [⟨some "alice", none, "d1"⟩, ⟨some "bob", none, "d2"⟩,
        ⟨some "alice", none, "d3"⟩])]
    (mkSummary [] ⟨"alpha", "org/alpha", false, false, "u", none, []⟩
      [⟨some "alice", none, "d1"⟩, ⟨some "bob", none, "d2"⟩,
        ⟨some "alice", none, "d3"⟩])
    (by decide)

end CollectStats
